import Mathlib

/-!
Verification development for the `pica-langchain` connection/action execution
engine (`pica_langchain/client.py`, `pica_langchain/models.py`).

The Python code is shallowly embedded: Python dicts become insertion-ordered
association lists, raised exceptions become `Except String`, and the HTTP
transport becomes explicit oracle functions.  Every outgoing HTTP request and
every header-carrying log emission is recorded in an explicit trace so that
"no network call happened" and "what reached the logs" are provable facts.
-/

namespace Pica

/-! ### Python dicts as insertion-ordered association lists

Python dict semantics needed by the code under study: assignment to an
existing key replaces the value in place (keeping insertion order),
assignment to a new key appends, `{**a, **b}` starts from `a` and assigns
every entry of `b`, and `del d[k]` removes the entry. -/

abbrev AList (α : Type) := List (String × α)

def dcontains {α : Type} : AList α → String → Bool
  | [], _ => false
  | p :: rest, k => p.1 == k || dcontains rest k

def dlookup {α : Type} : AList α → String → Option α
  | [], _ => none
  | p :: rest, k => if p.1 == k then some p.2 else dlookup rest k

def dinsert {α : Type} (d : AList α) (k : String) (v : α) : AList α :=
  if dcontains d k then d.map (fun p => if p.1 == k then (k, v) else p)
  else d ++ [(k, v)]

def derase {α : Type} (d : AList α) (k : String) : AList α :=
  d.filter (fun p => p.1 != k)

def dmerge {α : Type} (a b : AList α) : AList α :=
  b.foldl (fun acc p => dinsert acc p.1 p.2) a

/-! ### Python values

`ExecuteParams.data` is `Optional[Dict[str, Any]]`; the values that the code
inspects are strings, ints, bools and nested dicts (`isinstance(value, dict)`
in the multipart branch). -/

inductive Value where
  | vstr : String → Value
  | vint : Int → Value
  | vbool : Bool → Value
  | vdict : List (String × Value) → Value

/-- Python `str(True)` / `str(False)`. -/
def pyBoolStr (b : Bool) : String :=
  if b then "True" else "False"

mutual
/-- Python `repr` of a value (dict values render with `repr`). -/
def pyRepr : Value → String
  | .vstr s => "\x27" ++ s ++ "\x27"
  | .vint i => toString i
  | .vbool b => pyBoolStr b
  | .vdict kvs => "\x7b" ++ pyReprFields kvs ++ "\x7d"

def pyReprFields : AList Value → String
  | [] => ""
  | [(k, v)] => "\x27" ++ k ++ "\x27: " ++ pyRepr v
  | (k, v) :: rest => "\x27" ++ k ++ "\x27: " ++ pyRepr v ++ ", " ++ pyReprFields rest
end

/-- Python `str(value)`: bare for strings, `repr`-like otherwise. -/
def pyStr : Value → String
  | .vstr s => s
  | v => pyRepr v

/-- Python `str(None)` rendering of an optional string (f-string of `None`). -/
def pyOptStr : Option String → String
  | none => "None"
  | some s => s

def jsonEscape (s : String) : String :=
  String.mk (s.toList.foldr
    (fun c acc => if c = '"' ∨ c = '\\' then '\\' :: c :: acc else c :: acc) [])

mutual
/-- Python `json.dumps` with its default separators. -/
def jsonDumps : Value → String
  | .vstr s => "\"" ++ jsonEscape s ++ "\""
  | .vint i => toString i
  | .vbool b => if b then "true" else "false"
  | .vdict kvs => "\x7b" ++ jsonDumpsFields kvs ++ "\x7d"

def jsonDumpsFields : AList Value → String
  | [] => ""
  | [(k, v)] => "\"" ++ jsonEscape k ++ "\": " ++ jsonDumps v
  | (k, v) :: rest =>
      "\"" ++ jsonEscape k ++ "\": " ++ jsonDumps v ++ ", " ++ jsonDumpsFields rest
end

/-! ### The `\x7b\x7bvar\x7d\x7d` path-template scanner

Both `re.findall` in `PicaClient.execute` and `re.sub` in
`PicaClient._replace_path_variables` use the same pattern
`\left-brace\left-brace([^right-brace]+)\right-brace\right-brace` scanned
left to right, so both are derived from one tokenizer.  A match is two
opening braces, a maximal nonempty run of non-closing-brace characters, and
two closing braces; on a failed match the scan resumes one character later. -/

inductive PathTok where
  | lit : Char → PathTok
  | var : String → PathTok
deriving DecidableEq

/-- A match at an opening `\x7b\x7b` is a maximal nonempty run of
non-`\x7d` characters followed by `\x7d\x7d`; on a failed match the scan
resumes one character later, as `re` does.  Every step consumes at least one
character, so fuel equal to the input length makes the fuel case
unreachable; fuel keeps the recursion structural. -/
def tokenizeAux : Nat → List Char → List PathTok
  | 0, _ => []
  | _ + 1, [] => []
  | fuel + 1, '{' :: '{' :: rest =>
      let inner := rest.takeWhile (fun c => c != '}')
      match rest.dropWhile (fun c => c != '}') with
      | '}' :: '}' :: rest3 =>
          if inner.isEmpty then PathTok.lit '{' :: tokenizeAux fuel ('{' :: rest)
          else PathTok.var (String.mk inner) :: tokenizeAux fuel rest3
      | _ => PathTok.lit '{' :: tokenizeAux fuel ('{' :: rest)
  | fuel + 1, c :: rest => PathTok.lit c :: tokenizeAux fuel rest

def tokenizePath (cs : List Char) : List PathTok :=
  tokenizeAux cs.length cs

/-- `re.findall` of the template pattern: the group of each match, in order. -/
def findTemplateVars (path : String) : List String :=
  (tokenizePath path.toList).filterMap
    (fun t => match t with | .var n => some n | .lit _ => none)

/-- `re.sub` with the raising callback of `_replace_path_variables`: on the
first placeholder with no entry in `vars` the callback raises
`ValueError("Missing value for path variable: ...")`. -/
def replaceToks (vars : AList Value) : List PathTok → Except String String
  | [] => .ok ""
  | .lit c :: rest =>
      match replaceToks vars rest with
      | .error e => .error e
      | .ok s => .ok (String.mk [c] ++ s)
  | .var n :: rest =>
      match dlookup vars n with
      | none => .error ("Missing value for path variable: " ++ n)
      | some v =>
          match replaceToks vars rest with
          | .error e => .error e
          | .ok s => .ok (pyStr v ++ s)

/-- `PicaClient._replace_path_variables`. -/
def replace_path_variables (path : String) (vars : AList Value) : Except String String :=
  replaceToks vars (tokenizePath path.toList)

/-! ### Data model (`models.py`)

Only the fields that the embedded operations read are carried; the remaining
pydantic metadata fields (timestamps, audit info, version strings) are opaque
payload that no code path of the studied operations inspects. -/

/-- `models.Connection` (the fields read by `client.py`). -/
structure Connection where
  id : String
  key : String
  platform : String
  active : Bool
  deprecated : Bool
deriving DecidableEq

/-- `models.AvailableAction`.  The `_id`/`model_dump` fallback in
`get_available_actions` collapses to this single optional id field. -/
structure AvailableAction where
  id : Option String
  title : Option String
  connectionPlatform : Option String
  knowledge : Option String
  path : Option String
  tags : List String
deriving DecidableEq

/-- `models.ActionToExecute`. -/
structure ActionToExecute where
  id : String
  path : String
deriving DecidableEq

/-- `models.ExecuteParams`. -/
structure ExecuteParams where
  platform : String
  action : ActionToExecute
  method : String
  connection_key : String
  data : Option (AList Value) := none
  path_variables : Option (AList Value) := none
  query_params : Option (AList Value) := none
  headers : Option (AList Value) := none
  is_form_data : Bool := false
  is_url_encoded : Bool := false

/-- The `\x7b"_id", "title", "tags"\x7d` projection built by
`get_available_actions`. -/
structure SimplifiedAction where
  id : Option String
  title : Option String
  tags : List String
deriving DecidableEq

/-- `models.ActionsResponse` (a `PicaResponse` plus `actions`/`platform`). -/
structure ActionsResponse where
  success : Bool
  content : Option String := none
  message : Option String := none
  raw : Option String := none
  title : Option String := none
  actions : Option (List SimplifiedAction) := none
  platform : Option String := none
deriving DecidableEq

/-- `models.ActionKnowledgeResponse`. -/
structure ActionKnowledgeResponse where
  success : Bool
  platform : String
  content : Option String := none
  message : Option String := none
  raw : Option String := none
  title : Option String := none
  action : Option AvailableAction := none
deriving DecidableEq

/-- `models.RequestConfig` as built in `execute` (the `request_config` dict;
its `"data"` key is only set for non-GET methods). -/
structure RequestConfig where
  url : String
  method : String
  headers : AList String
  params : Option (AList Value)
  data : Option String := none

/-- The decoded passthrough response: `response.json()`, falling back to
`response.text` when JSON decoding fails. -/
inductive ResponseBody where
  | jsonBody : Value → ResponseBody
  | textBody : String → ResponseBody

/-- `models.ExecuteResponse`. -/
structure ExecuteResponse where
  success : Bool
  content : Option String := none
  message : Option String := none
  raw : Option String := none
  title : Option String := none
  data : Option ResponseBody := none
  connectionKey : Option String := none
  platform : Option String := none
  action : Option String := none
  requestConfig : Option RequestConfig := none
  knowledge : Option String := none

/-! ### HTTP and logging effects

The HTTP transport is an oracle; a `.error` result is a raised
`requests` exception (connection failure, decode failure, or the
`raise_for_status` of a non-2xx response).  Every issued request is recorded
in a `Call` trace.

The logger module itself is not part of the sources under study.
Modelled from the spec: the log sink (`logger.debug`, `log_request_response`)
is missing from `src/`; per the spec it emits exactly the data handed to it,
and masking happens by header-name matching in `execute` before emission.
Log events therefore carry the structures whose rendering is emitted; only
the emissions that can carry header data (plus error reports) are recorded. -/

/-- An outgoing HTTP request as assembled by `execute`. -/
structure HttpRequest where
  method : String
  url : String
  headers : AList String
  query_params : Option (AList Value)
  body : Option String

/-- A raw HTTP response: the result of `response.json()` if it succeeded,
plus `response.text`. -/
structure HttpResponse where
  jsonResult : Option Value
  text : String

/-- One network call issued by `execute`. -/
inductive Call where
  | getAction : String → Call
  | http : HttpRequest → Call

/-- One log emission of `execute`. -/
inductive LogEvent where
  | debugConfig : RequestConfig → LogEvent
  | requestLog : String → String → RequestConfig → LogEvent
  | responseLog : String → String → RequestConfig → LogEvent
  | errorLog : String → LogEvent

/-! ### Paginator (`PicaClient._paginate_results`)

The oracle maps the `skip` query parameter to the decoded page (or a raised
error).  The Python `while True` loop is given explicit fuel; `none` means
the loop was still running when the fuel ran out, so every `some` result is
a faithful outcome of the loop.  The returned trace lists the `skip` value
of every GET request issued, in order. -/

structure Page (α : Type) where
  rows : List α
  total : Nat
deriving DecidableEq

def paginateAux {α : Type} (oracle : Nat → Except String (Page α)) (limit : Nat) :
    Nat → Nat → List α → Option ((Except String (List α)) × List Nat)
  | 0, _, _ => none
  | fuel + 1, skip, acc =>
    match oracle skip with
    | .error e => some (.error e, [skip])
    | .ok page =>
        let acc2 := acc ++ page.rows
        if page.total ≤ acc2.length then some (.ok acc2, [skip])
        else
          match paginateAux oracle limit fuel (skip + limit) acc2 with
          | none => none
          | some (r, t) => some (r, skip :: t)

/-- `PicaClient._paginate_results` with its default `limit=100`, starting at
`skip=0` with an empty accumulator. -/
def paginate_results {α : Type} (oracle : Nat → Except String (Page α)) (fuel : Nat)
    (limit : Nat) : Option ((Except String (List α)) × List Nat) :=
  paginateAux oracle limit fuel 0 []

/-! ### Action catalog (`get_single_action`, `get_all_available_actions`,
`get_available_actions`, `get_action_knowledge`) -/

/-- `PicaClient.get_single_action`: the oracle returns the decoded `rows` for
the `_id` query.  Transport failure, decode failure and the zero-rows
"not found" `ValueError` are all caught and re-raised as
`ValueError("Failed to fetch action")`. -/
def get_single_action (oracle : String → Except String (List AvailableAction))
    (action_id : String) : Except String AvailableAction :=
  match oracle action_id with
  | .error _ => .error "Failed to fetch action"
  | .ok [] => .error "Failed to fetch action"
  | .ok (a :: _) => .ok a

/-- `PicaClient.get_all_available_actions`: paginates the knowledge endpoint
and re-raises any failure as
`ValueError("Failed to fetch all available actions")`. -/
def get_all_available_actions (oracle : Nat → Except String (Page AvailableAction))
    (fuel : Nat) : Option (Except String (List AvailableAction)) :=
  match paginate_results oracle fuel 100 with
  | none => none
  | some (.error _, _) => some (.error "Failed to fetch all available actions")
  | some (.ok rows, _) => some (.ok rows)

/-- `PicaClient.get_available_actions` (public, tool-facing). -/
def get_available_actions (oracle : Nat → Except String (Page AvailableAction))
    (fuel : Nat) (platform : String) : Option ActionsResponse :=
  match get_all_available_actions oracle fuel with
  | none => none
  | some (.error e) =>
      some { success := false, title := some "Failed to get available actions",
             message := some e, raw := some e }
  | some (.ok all_actions) =>
      let simplified := all_actions.map (fun a => SimplifiedAction.mk a.id a.title a.tags)
      some { success := true, actions := some simplified, platform := some platform,
             content := some ("Found " ++ toString simplified.length ++
               " available actions for " ++ platform) }

/-- `PicaClient.get_action_knowledge` (public, tool-facing). -/
def get_action_knowledge (oracle : String → Except String (List AvailableAction))
    (platform action_id : String) : ActionKnowledgeResponse :=
  match get_single_action oracle action_id with
  | .ok action =>
      { success := true, platform := platform, action := some action,
        content := some ("Found knowledge for action: " ++ pyOptStr action.title) }
  | .error e =>
      { success := false, platform := platform,
        title := some "Failed to get action knowledge",
        message := some e, raw := some e }

/-! ### Connection registry (`PicaClient.initialize`, lines 89-119) -/

/-- The registry state that `initialize` computes on its first call:
the resolved connector filter, `self.connections`, and the active+filtered
list used for the prompt summary. -/
structure InitOutcome where
  connectors_filter : List String
  connections : List Connection
  filtered_connections : List Connection
deriving DecidableEq

/-- Lines 89-98: the connector filter is cleared exactly when it is non-empty
and holds the wildcard token (`if self._connectors_filter and "*" in
self._connectors_filter`). -/
def resolvedConnectorFilter (connectors_filter : List String) : List String :=
  if ¬ connectors_filter.isEmpty ∧ connectors_filter.contains "*" then []
  else connectors_filter

/-- Lines 89-98: connections are fetched in the wildcard and the explicit
branches (both call `_initialize_connections`), and left empty otherwise. -/
def fetchedOrEmpty (connectors_filter : List String) (fetched : List Connection) :
    List Connection :=
  if ¬ connectors_filter.isEmpty then fetched else []

/-- Lines 102-110: keep the `active` connections, then apply the key filter
when the resolved filter is non-empty. -/
def activeFiltered (fc1 : List String) (conns : List Connection) : List Connection :=
  let active := conns.filter (fun conn => conn.active)
  if ¬ fc1.isEmpty then active.filter (fun conn => fc1.contains conn.key)
  else active

/-- `PicaClient.initialize`, lines 89-110: wildcard handling, the
active-connection filter and the key filter.  `fetched` is what
`_initialize_connections` would store (already `[]` if that fetch failed). -/
def initializeResolve (connectors_filter : List String) (fetched : List Connection) :
    InitOutcome :=
  ⟨resolvedConnectorFilter connectors_filter,
   fetchedOrEmpty connectors_filter fetched,
   activeFiltered (resolvedConnectorFilter connectors_filter)
     (fetchedOrEmpty connectors_filter fetched)⟩

/-! ### Execution engine (`PicaClient.execute`) -/

structure ClientState where
  secret : String
  base_url : String
  connections : List Connection

/-- `PicaClient._generate_headers`. -/
def generate_headers (secret : String) : AList String :=
  [("Content-Type", "application/json"), ("x-pica-secret", secret)]

def connectionNotFoundMsg (platform : String) : String :=
  "Connection not found. Please add a " ++ platform ++ " connection first."

def joinComma : List String → String
  | [] => ""
  | [s] => s
  | s :: rest => s ++ ", " ++ joinComma rest

def missingVarsMsg (missing : List String) : String :=
  "Missing required path variables: " ++ joinComma missing ++
    ". Please provide values for these variables."

/-- The `for var in required_vars` loop of `execute` (lines 492-499): every
placeholder present in `data` but not in `path_variables` is moved from the
body mapping into the path-variable mapping; the new `data` is a copy, the
caller's dict is untouched. -/
def movePathVars (required_vars : List String) (data path_variables : AList Value) :
    AList Value × AList Value :=
  required_vars.foldl
    (fun acc var =>
      if dcontains acc.1 var && ! dcontains acc.2 var then
        (derase acc.1 var, dinsert acc.2 var ((dlookup acc.1 var).getD (Value.vstr "")))
      else acc)
    (data, path_variables)

/-- The outcome of the path-variable reconciliation step of `execute`. -/
structure Resolved where
  path : String
  data : Option (AList Value)
  path_variables : AList Value

/-- `combined_vars` of line 479-482: merge `data` (if a mapping) with the
explicit `path_variables`; the explicit entries win on conflict. -/
def combinedVars (p : ExecuteParams) : AList Value :=
  match p.data with
  | some d => dmerge d (p.path_variables.getD [])
  | none => p.path_variables.getD []

/-- `missing_vars` of line 485: the placeholders with no entry in the merge,
computed eagerly over the full placeholder list. -/
def missingPathVars (p : ExecuteParams) : List String :=
  (findTemplateVars p.action.path).filter (fun v => ! dcontains (combinedVars p) v)

/-- The (`data`, `path_variables`) pair after the move loop; when `data` is
not a mapping the loop body is skipped. -/
def movedPair (p : ExecuteParams) : AList Value × AList Value :=
  match p.data with
  | some d => movePathVars (findTemplateVars p.action.path) d (p.path_variables.getD [])
  | none => ([], p.path_variables.getD [])

/-- `params.data` after the move loop (`None` stays `None`). -/
def dataAfterMove (p : ExecuteParams) : Option (AList Value) :=
  match p.data with
  | some _ => some (movedPair p).1
  | none => none

/-- `execute` lines 470-503: extract the placeholders, merge `data` with the
explicit `path_variables` (explicit wins), fail eagerly naming every missing
placeholder, move `data`-only placeholders out of the body, substitute. -/
def resolvePath (p : ExecuteParams) : Except String Resolved :=
  let path := p.action.path
  let template_vars := findTemplateVars path
  if template_vars.isEmpty then
    .ok ⟨path, p.data, p.path_variables.getD []⟩
  else
    if ¬ (missingPathVars p).isEmpty then
      .error (missingVarsMsg (missingPathVars p))
    else
      match replace_path_variables path (movedPair p).2 with
      | .error e => .error e
      | .ok newPath => .ok ⟨newPath, dataAfterMove p, (movedPair p).2⟩

/-- Python's `str.lower()` over the characters (kernel-computable, unlike
`String.toLower`, whose `mapAux` recursion is well-founded). -/
def strToLower (s : String) : String :=
  String.mk (s.toList.map Char.toLower)

/-- Does `needle` match at the head of `hay`? -/
def charsMatchAt : List Char → List Char → Bool
  | [], _ => true
  | _ :: _, [] => false
  | n :: ns, h :: hs => n == h && charsMatchAt ns hs

/-- Python's substring test `needle in hay`. -/
def containsSub (needle : List Char) : List Char → Bool
  | [] => needle.isEmpty
  | h :: hs => charsMatchAt needle (h :: hs) || containsSub needle hs

/-- `'secret' not in k.lower() and 'key' not in k.lower()` from line 543. -/
def headerNameSafe (k : String) : Bool :=
  ! (containsSub "secret".toList (strToLower k).toList) &&
  ! (containsSub "key".toList (strToLower k).toList)

/-- The `safe_headers` masking of `execute` lines 543-544. -/
def safeHeaders (hs : AList String) : AList String :=
  hs.map (fun p => (p.1, if headerNameSafe p.1 then p.2 else "********"))

/-- Deterministic model of `requests_toolbelt.MultipartEncoder`: the encoder
generates a random boundary; it is modelled as a fixed string, independent of
every input. -/
def multipartBoundary : String := "8a9bc3dd41f1b4713f2e0d4cf4c8de9a"

def multipartContentType : String :=
  "multipart/form-data; boundary=" ++ multipartBoundary

/-- The `form_fields` conversion of lines 526-531: nested dict values become
JSON parts tagged `application/json`, everything else a plain string part. -/
def formFieldOfValue : Value → String × Option String
  | .vdict kvs => (jsonDumps (.vdict kvs), some "application/json")
  | v => (pyStr v, none)

def multipartPart (f : String × String × Option String) : String :=
  "--" ++ multipartBoundary ++ "\r\n" ++
  "Content-Disposition: form-data; name=\"" ++ f.1 ++ "\"\r\n" ++
  (match f.2.2 with
   | some t => "Content-Type: " ++ t ++ "\r\n"
   | none => "") ++
  "\r\n" ++ f.2.1 ++ "\r\n"

/-- `MultipartEncoder(fields=form_fields).to_string()`. -/
def multipartToString (fields : AList (String × Option String)) : String :=
  String.join (fields.map multipartPart) ++ "--" ++ multipartBoundary ++ "--\r\n"

/-- Header assembly of lines 505-512: the client auth headers plus the
connection-key and action-id headers, with the `multipart/form-data`
placeholder when `is_form_data` is set. -/
def assembleHeaders (c : ClientState) (p : ExecuteParams) : AList String :=
  let headers0 :=
    dinsert (dinsert (generate_headers c.secret)
      "x-pica-connection-key" p.connection_key) "x-pica-action-id" p.action.id
  if p.is_form_data then dinsert headers0 "Content-Type" "multipart/form-data"
  else headers0

/-- The passthrough URL of line 514, normalizing a missing leading slash. -/
def passthroughUrl (c : ClientState) (path : String) : String :=
  c.base_url ++ "/v1/passthrough" ++
    (if charsMatchAt "/".toList path.toList then path else "/" ++ path)

/-- Body assembly of lines 523-538 (plus the in-place `Content-Type`
overwrite of line 534, which the request, the `request_config`, and the logs
all observe because they share the one headers dict): returns the request
body and the final headers. -/
def assembleBody (c : ClientState) (p : ExecuteParams) (r : Resolved) :
    Option String × AList String :=
  let headers1 := assembleHeaders c p
  let dataTruthy := match r.data with | some d => ! d.isEmpty | none => false
  if ¬ (strToLower p.method == "get") then
    if p.is_form_data && dataTruthy then
      let fields := (r.data.getD []).map (fun kv => (kv.1, formFieldOfValue kv.2))
      ((some (multipartToString fields) : Option String),
       dinsert headers1 "Content-Type" multipartContentType)
    else
      (match r.data with
       | some d => if d.isEmpty then none else some (jsonDumps (.vdict d))
       | none => none,
       headers1)
  else ((none : Option String), headers1)

/-- The outgoing passthrough request dispatched at line 548. -/
def buildRequest (c : ClientState) (p : ExecuteParams) (r : Resolved) : HttpRequest :=
  { method := p.method, url := passthroughUrl c r.path,
    headers := (assembleBody c p r).2, query_params := p.query_params,
    body := (assembleBody c p r).1 }

/-- The `request_config` dict of lines 516-538, sharing every field with the
outgoing request. -/
def requestConfigOf (req : HttpRequest) : RequestConfig :=
  { url := req.url, method := req.method, headers := req.headers,
    params := req.query_params, data := req.body }

/-- The `try` block of `execute` (lines 458-580), returning the raised
exception or the success envelope, plus the network-call and log traces. -/
def executeTry (c : ClientState)
    (actionOracle : String → Except String (List AvailableAction))
    (httpOracle : HttpRequest → Except String HttpResponse)
    (p : ExecuteParams) :
    (Except String ExecuteResponse) × List Call × List LogEvent :=
  if ¬ (c.connections.any (fun conn => conn.key == p.connection_key)) then
    (.error (connectionNotFoundMsg p.platform), [],
     [.errorLog (connectionNotFoundMsg p.platform)])
  else
    match get_single_action actionOracle p.action.id with
    | .error e => (.error e, [.getAction p.action.id], [])
    | .ok full_action =>
      match resolvePath p with
      | .error e => (.error e, [.getAction p.action.id], [.errorLog e])
      | .ok r =>
        let req := buildRequest c p r
        let url := req.url
        let request_config : RequestConfig := requestConfigOf req
        let safe_config : RequestConfig :=
          { request_config with headers := safeHeaders req.headers }
        let logs := [LogEvent.debugConfig request_config,
                     LogEvent.requestLog p.method url safe_config]
        match httpOracle req with
        | .error e => (.error e, [.getAction p.action.id, .http req], logs)
        | .ok resp =>
            let response_data : ResponseBody :=
              match resp.jsonResult with
              | some v => .jsonBody v
              | none => .textBody resp.text
            (.ok { success := true
                   data := some response_data
                   connectionKey := some p.connection_key
                   platform := some p.platform
                   action := full_action.title
                   requestConfig := some request_config
                   knowledge := full_action.knowledge
                   content := some ("Executed " ++ pyOptStr full_action.title ++
                     " via " ++ p.platform) },
             [.getAction p.action.id, .http req],
             logs ++ [.responseLog p.method url safe_config])

/-- `PicaClient.execute`: the `try`/`except` wrapper that converts any raised
exception into a `success=false` envelope. -/
def execute (c : ClientState)
    (actionOracle : String → Except String (List AvailableAction))
    (httpOracle : HttpRequest → Except String HttpResponse)
    (p : ExecuteParams) : ExecuteResponse × List Call × List LogEvent :=
  match executeTry c actionOracle httpOracle p with
  | (.ok r, calls, logs) => (r, calls, logs)
  | (.error e, calls, logs) =>
      ({ success := false, title := some "Failed to execute action",
         message := some e, raw := some e },
       calls, logs ++ [.errorLog ("Error executing action: " ++ e)])

/-! ### Concrete fixtures used by the witness statements -/

/-- A server holding 250 rows, served in pages of at most 100. -/
def server250 : Nat → Except String (Page Nat) :=
  fun skip => .ok ⟨((List.range 250).drop skip).take 100, 250⟩

def demoConnection : Connection :=
  ⟨"conn-id-1", "test::github::demo", "github", true, false⟩

def demoInactive : Connection :=
  ⟨"conn-id-2", "test::gmail::old", "gmail", false, false⟩

def demoClient : ClientState :=
  ⟨"sk-live-secret", "https://api.picaos.com", [demoConnection]⟩

def demoAction : AvailableAction :=
  ⟨some "act-1", some "Update Item", some "github", some "usage notes", none, []⟩

def demoActionOracle : String → Except String (List AvailableAction) :=
  fun _ => .ok [demoAction]

def demoHttpOracle : HttpRequest → Except String HttpResponse :=
  fun _ => .ok ⟨some (Value.vdict []), ""⟩

/-- The `data`/path-template scenario of the spec's testable property:
`data=\x7b"id": "7", "note": "hi"\x7d` against path `/items/\x7b\x7bid\x7d\x7d`. -/
def demoParams : ExecuteParams :=
  { platform := "github", action := ⟨"act-1", "/items/{{id}}"⟩, method := "POST",
    connection_key := "test::github::demo",
    data := some [("id", Value.vstr "7"), ("note", Value.vstr "hi")] }

/-- A request with two placeholders and no variable source at all. -/
def demoMissingParams : ExecuteParams :=
  { platform := "github", action := ⟨"act-2", "/x/{{a}}/{{b}}"⟩, method := "GET",
    connection_key := "test::github::demo" }

/-- The reconciliation outcome of `demoParams`: the templated `id` moved out
of the body into the path variables. -/
def demoResolved : Resolved :=
  ⟨"/items/7", some [("note", Value.vstr "hi")], [("id", Value.vstr "7")]⟩

/-- The passthrough request that `execute demoClient ... demoParams`
dispatches. -/
def demoRequest : HttpRequest :=
  { method := "POST",
    url := "https://api.picaos.com/v1/passthrough/items/7",
    headers := [("Content-Type", "application/json"),
                ("x-pica-secret", "sk-live-secret"),
                ("x-pica-connection-key", "test::github::demo"),
                ("x-pica-action-id", "act-1")],
    query_params := none,
    body := some "\x7b\"note\": \"hi\"\x7d" }

/-! ## Helper lemmas -/

theorem derase_cons {α : Type} (a : String × α) (d : AList α) (k : String) :
    derase (a :: d) k =
      (if (a.1 != k) = true then a :: derase d k else derase d k) := by
  simp only [derase, List.filter_cons]

theorem dcontains_map_replace {α : Type} (d : AList α) (k : String) (x : α) (v : String) :
    dcontains (d.map (fun p => if p.1 == k then (k, x) else p)) v = dcontains d v := by
  induction d with
  | nil => rfl
  | cons a d ih =>
      rw [List.map_cons]
      simp only [dcontains]
      cases ha : a.1 == k
      · rw [if_neg (by simp [ha]), ih]
      · rw [if_pos rfl, ih, eq_of_beq ha]

theorem dcontains_append_single {α : Type} (d : AList α) (k : String) (x : α) (v : String) :
    dcontains (d ++ [(k, x)]) v = (dcontains d v || k == v) := by
  induction d with
  | nil => simp [dcontains]
  | cons a d ih =>
      rw [List.cons_append]
      simp only [dcontains]
      rw [ih, Bool.or_assoc]

theorem dcontains_dinsert {α : Type} (d : AList α) (k : String) (x : α) (v : String) :
    dcontains (dinsert d k x) v = (dcontains d v || k == v) := by
  unfold dinsert
  by_cases hc : dcontains d k = true
  · rw [if_pos hc, dcontains_map_replace]
    cases hkv : k == v
    · simp
    · have hk : k = v := eq_of_beq hkv
      subst hk
      rw [hc]
      simp
  · rw [if_neg hc, dcontains_append_single]

theorem dlookup_map_replace_self {α : Type} (d : AList α) (k : String) (x : α) :
    dcontains d k = true →
    dlookup (d.map (fun p => if p.1 == k then (k, x) else p)) k = some x := by
  induction d with
  | nil => intro h; simp [dcontains] at h
  | cons a d ih =>
      intro h
      cases ha : a.1 == k
      · rw [List.map_cons, if_neg (by simp [ha])]
        simp only [dlookup]
        rw [if_neg (by simp [ha])]
        refine ih ?_
        simpa [dcontains, ha] using h
      · rw [List.map_cons, if_pos ha]
        simp only [dlookup]
        rw [if_pos (by simp)]

theorem dlookup_map_replace_ne {α : Type} (d : AList α) (k : String) (x : α)
    (v : String) (hkv : (k == v) = false) :
    dlookup (d.map (fun p => if p.1 == k then (k, x) else p)) v = dlookup d v := by
  induction d with
  | nil => rfl
  | cons a d ih =>
      cases ha : a.1 == k
      · rw [List.map_cons, if_neg (by simp [ha])]
        simp only [dlookup]
        rw [ih]
      · rw [List.map_cons, if_pos ha]
        simp only [dlookup]
        have hav : (a.1 == v) = false := by rw [eq_of_beq ha]; exact hkv
        rw [if_neg (by simp [hkv]), if_neg (by simp [hav]), ih]

theorem dlookup_append_single {α : Type} (d : AList α) (k : String) (x : α) (v : String)
    (hn : dlookup d v = none) :
    dlookup (d ++ [(k, x)]) v = (if (k == v) = true then some x else none) := by
  induction d with
  | nil => simp only [List.nil_append, dlookup]
  | cons a d ih =>
      cases ha : a.1 == v
      · rw [List.cons_append]
        simp only [dlookup]
        rw [if_neg (by simp [ha])]
        refine ih ?_
        simpa [dlookup, ha] using hn
      · simp only [dlookup, ha, if_true] at hn
        cases hn

theorem dlookup_append_single_of_some {α : Type} (d : AList α) (k : String) (x : α)
    (v : String) (y : α) (hs : dlookup d v = some y) :
    dlookup (d ++ [(k, x)]) v = some y := by
  induction d with
  | nil => simp [dlookup] at hs
  | cons a d ih =>
      cases ha : a.1 == v
      · rw [List.cons_append]
        simp only [dlookup]
        rw [if_neg (by simp [ha])]
        refine ih ?_
        simpa [dlookup, ha] using hs
      · simp only [dlookup, ha, if_true] at hs
        rw [List.cons_append]
        simp only [dlookup]
        rw [if_pos (by simp [ha]), hs]

theorem dcontains_eq_isSome {α : Type} (d : AList α) (v : String) :
    dcontains d v = (dlookup d v).isSome := by
  induction d with
  | nil => rfl
  | cons a d ih =>
      simp only [dcontains, dlookup]
      cases ha : a.1 == v
      · simp [ha, ih]
      · simp [ha]

theorem dlookup_dinsert_self {α : Type} (d : AList α) (k : String) (x : α) :
    dlookup (dinsert d k x) k = some x := by
  unfold dinsert
  by_cases hc : dcontains d k = true
  · rw [if_pos hc]
    exact dlookup_map_replace_self d k x hc
  · rw [if_neg hc]
    have hn : dlookup d k = none := by
      have := dcontains_eq_isSome d k
      cases hl : dlookup d k
      · rfl
      · rw [hl] at this
        simp at this
        exact absurd this hc
    rw [dlookup_append_single d k x k hn]
    simp

theorem dlookup_dinsert_ne {α : Type} (d : AList α) (k : String) (x : α) (v : String)
    (hkv : (k == v) = false) : dlookup (dinsert d k x) v = dlookup d v := by
  unfold dinsert
  by_cases hc : dcontains d k = true
  · rw [if_pos hc]
    exact dlookup_map_replace_ne d k x v hkv
  · rw [if_neg hc]
    cases hl : dlookup d v
    · rw [dlookup_append_single d k x v hl, hkv]
      simp
    · exact dlookup_append_single_of_some d k x v _ hl

theorem dcontains_derase_self {α : Type} (d : AList α) (k : String) :
    dcontains (derase d k) k = false := by
  induction d with
  | nil => rfl
  | cons a d ih =>
      rw [derase_cons]
      cases ha : a.1 != k
      · rw [if_neg (by simp [ha])]
        exact ih
      · rw [if_pos rfl]
        have hak : (a.1 == k) = false := by
          cases h2 : a.1 == k
          · rfl
          · rw [bne, h2] at ha
            cases ha
        simp only [dcontains, hak, Bool.false_or]
        exact ih

theorem dcontains_derase_ne {α : Type} (d : AList α) (k v : String)
    (hkv : (k == v) = false) : dcontains (derase d k) v = dcontains d v := by
  induction d with
  | nil => rfl
  | cons a d ih =>
      rw [derase_cons]
      cases ha : a.1 != k
      · have hak : a.1 = k := by
          refine eq_of_beq ?_
          cases h2 : a.1 == k
          · rw [bne, h2] at ha
            cases ha
          · rfl
        have hav : (a.1 == v) = false := by rw [hak]; exact hkv
        rw [if_neg (by simp [ha]), ih]
        simp only [dcontains, hav, Bool.false_or]
      · rw [if_pos rfl]
        simp only [dcontains]
        rw [ih]

theorem dlookup_derase_ne {α : Type} (d : AList α) (k v : String)
    (hkv : (k == v) = false) : dlookup (derase d k) v = dlookup d v := by
  induction d with
  | nil => rfl
  | cons a d ih =>
      rw [derase_cons]
      cases ha : a.1 != k
      · have hak : a.1 = k := by
          refine eq_of_beq ?_
          cases h2 : a.1 == k
          · rw [bne, h2] at ha
            cases ha
          · rfl
        have hav : (a.1 == v) = false := by rw [hak]; exact hkv
        rw [if_neg (by simp [ha]), ih]
        simp only [dlookup]
        rw [if_neg (by simp [hav])]
      · rw [if_pos rfl]
        simp only [dlookup]
        cases h3 : a.1 == v
        · rw [if_neg (by simp [h3]), if_neg (by simp [h3]), ih]
        · rw [if_pos (by simp [h3]), if_pos (by simp [h3])]

theorem dcontains_dmerge {α : Type} (b a : AList α) (v : String) :
    dcontains (dmerge a b) v = (dcontains a v || dcontains b v) := by
  induction b generalizing a with
  | nil => simp [dmerge, dcontains]
  | cons p b ih =>
      have step : dmerge a (p :: b) = dmerge (dinsert a p.1 p.2) b := rfl
      rw [step, ih, dcontains_dinsert]
      simp only [dcontains]
      cases h1 : dcontains a v <;> cases h2 : p.1 == v <;> simp

theorem dcontains_of_derase {α : Type} (d : AList α) (k v : String)
    (h : dcontains (derase d k) v = true) : dcontains d v = true := by
  cases hkv : k == v
  · rw [dcontains_derase_ne d k v hkv] at h
    exact h
  · have hk : k = v := eq_of_beq hkv
    subst hk
    rw [dcontains_derase_self] at h
    cases h

theorem dlookup_some_of_dcontains {α : Type} (d : AList α) (v : String)
    (h : dcontains d v = true) : ∃ x, dlookup d v = some x := by
  rw [dcontains_eq_isSome] at h
  cases hl : dlookup d v
  · rw [hl] at h
    simp at h
  · exact ⟨_, rfl⟩

/-! Lemmas about the move loop of `execute` (lines 492-499). -/

theorem movePathVars_cons (w : String) (rest : List String) (d pv : AList Value) :
    movePathVars (w :: rest) d pv =
      (if dcontains d w && ! dcontains pv w then
         movePathVars rest (derase d w)
           (dinsert pv w ((dlookup d w).getD (Value.vstr "")))
       else movePathVars rest d pv) := by
  simp only [movePathVars, List.foldl_cons]
  by_cases hg : (dcontains d w && ! dcontains pv w) = true
  · rw [if_pos hg, if_pos hg]
  · rw [if_neg hg, if_neg hg]

theorem movePathVars_pv_mono (vars : List String) (d pv : AList Value) (v : String)
    (h : dcontains pv v = true) : dcontains (movePathVars vars d pv).2 v = true := by
  induction vars generalizing d pv with
  | nil => exact h
  | cons w rest ih =>
      rw [movePathVars_cons]
      by_cases hg : (dcontains d w && ! dcontains pv w) = true
      · rw [if_pos hg]
        refine ih _ _ ?_
        rw [dcontains_dinsert, h]
        simp
      · rw [if_neg hg]
        exact ih _ _ h

theorem movePathVars_pv_stable (vars : List String) (d pv : AList Value) (v : String)
    (h : dcontains pv v = true) :
    dlookup (movePathVars vars d pv).2 v = dlookup pv v := by
  induction vars generalizing d pv with
  | nil => rfl
  | cons w rest ih =>
      rw [movePathVars_cons]
      by_cases hg : (dcontains d w && ! dcontains pv w) = true
      · rw [if_pos hg]
        have hwv : (w == v) = false := by
          cases hwv2 : w == v
          · rfl
          · have hw : w = v := eq_of_beq hwv2
            subst hw
            rw [h] at hg
            simp at hg
        have hpv2 : dcontains (dinsert pv w ((dlookup d w).getD (Value.vstr ""))) v
            = true := by
          rw [dcontains_dinsert, h]
          simp
        rw [ih _ _ hpv2, dlookup_dinsert_ne _ _ _ _ hwv]
      · rw [if_neg hg]
        exact ih _ _ h

theorem movePathVars_data_sub (vars : List String) (d pv : AList Value) (v : String)
    (h : dcontains (movePathVars vars d pv).1 v = true) : dcontains d v = true := by
  induction vars generalizing d pv with
  | nil => exact h
  | cons w rest ih =>
      rw [movePathVars_cons] at h
      by_cases hg : (dcontains d w && ! dcontains pv w) = true
      · rw [if_pos hg] at h
        exact dcontains_of_derase d w v (ih _ _ h)
      · rw [if_neg hg] at h
        exact ih _ _ h

theorem movePathVars_moved (vars : List String) (d pv : AList Value) (v : String)
    (hv : v ∈ vars) (hd : dcontains d v = true) (hpv : dcontains pv v = false) :
    dcontains (movePathVars vars d pv).1 v = false ∧
    dlookup (movePathVars vars d pv).2 v = dlookup d v := by
  induction vars generalizing d pv with
  | nil => cases hv
  | cons w rest ih =>
      rw [movePathVars_cons]
      by_cases hwv : w = v
      · subst hwv
        have hg : (dcontains d w && ! dcontains pv w) = true := by
          rw [hd, hpv]
          rfl
        rw [if_pos hg]
        constructor
        · cases hcc : dcontains (movePathVars rest (derase d w)
              (dinsert pv w ((dlookup d w).getD (Value.vstr "")))).1 w
          · rfl
          · have h2 := movePathVars_data_sub rest _ _ _ hcc
            rw [dcontains_derase_self] at h2
            cases h2
        · obtain ⟨x, hx⟩ := dlookup_some_of_dcontains d w hd
          have hpc : dcontains (dinsert pv w ((dlookup d w).getD (Value.vstr ""))) w
              = true := by
            rw [dcontains_dinsert]
            simp
          rw [movePathVars_pv_stable rest _ _ _ hpc, dlookup_dinsert_self, hx]
          rfl
      · have hwvb : (w == v) = false := by
          cases h2 : w == v
          · rfl
          · exact absurd (eq_of_beq h2) hwv
        have hv2 : v ∈ rest := by
          cases hv with
          | head => exact absurd rfl hwv
          | tail _ h2 => exact h2
        by_cases hg : (dcontains d w && ! dcontains pv w) = true
        · rw [if_pos hg]
          have hd2 : dcontains (derase d w) v = true := by
            rw [dcontains_derase_ne _ _ _ hwvb]
            exact hd
          have hpv2 : dcontains (dinsert pv w ((dlookup d w).getD (Value.vstr ""))) v
              = false := by
            rw [dcontains_dinsert, hpv, hwvb]
            rfl
          obtain ⟨h1, h2⟩ := ih _ _ hv2 hd2 hpv2
          refine ⟨h1, ?_⟩
          rw [h2, dlookup_derase_ne _ _ _ hwvb]
        · rw [if_neg hg]
          exact ih _ _ hv2 hd hpv

theorem movePathVars_covers (vars : List String) (d pv : AList Value) (v : String)
    (hv : v ∈ vars) (h : (dcontains d v || dcontains pv v) = true) :
    dcontains (movePathVars vars d pv).2 v = true := by
  induction vars generalizing d pv with
  | nil => cases hv
  | cons w rest ih =>
      rw [movePathVars_cons]
      by_cases hg : (dcontains d w && ! dcontains pv w) = true
      · rw [if_pos hg]
        by_cases hwv : w = v
        · subst hwv
          refine movePathVars_pv_mono rest _ _ _ ?_
          rw [dcontains_dinsert]
          simp
        · have hwvb : (w == v) = false := by
            cases h2 : w == v
            · rfl
            · exact absurd (eq_of_beq h2) hwv
          have hv2 : v ∈ rest := by
            cases hv with
            | head => exact absurd rfl hwv
            | tail _ h2 => exact h2
          refine ih _ _ hv2 ?_
          rw [dcontains_derase_ne _ _ _ hwvb, dcontains_dinsert, hwvb]
          simpa using h
      · rw [if_neg hg]
        by_cases hwv : w = v
        · subst hwv
          cases hpv : dcontains pv w
          · have hdw : dcontains d w = false := by
              cases hdw2 : dcontains d w
              · rfl
              · rw [hdw2, hpv] at hg
                simp at hg
            rw [hdw, hpv] at h
            cases h
          · exact movePathVars_pv_mono rest _ _ _ hpv
        · have hv2 : v ∈ rest := by
            cases hv with
            | head => exact absurd rfl hwv
            | tail _ h2 => exact h2
          exact ih _ _ hv2 h

/-! Lemmas about the template scanner and the substitution. -/

theorem replaceToks_isOk (vs : AList Value) (toks : List PathTok)
    (h : ∀ n, PathTok.var n ∈ toks → dcontains vs n = true) :
    ∃ s, replaceToks vs toks = .ok s := by
  induction toks with
  | nil => exact ⟨"", rfl⟩
  | cons t rest ih =>
      obtain ⟨s, hs⟩ := ih (fun n hn => h n (List.mem_cons_of_mem t hn))
      cases t with
      | lit c =>
          refine ⟨String.mk [c] ++ s, ?_⟩
          simp only [replaceToks, hs]
      | var n =>
          obtain ⟨x, hx⟩ := dlookup_some_of_dcontains vs n (h n (List.mem_cons_self _ _))
          refine ⟨pyStr x ++ s, ?_⟩
          simp only [replaceToks, hx, hs]

theorem mem_findTemplateVars (path : String) (v : String) :
    v ∈ findTemplateVars path ↔ PathTok.var v ∈ tokenizePath path.toList := by
  unfold findTemplateVars
  rw [List.mem_filterMap]
  constructor
  · rintro ⟨t, ht, hv⟩
    cases t with
    | lit c => simp at hv
    | var n =>
        have hn : n = v := by simpa using hv
        subst hn
        exact ht
  · intro ht
    exact ⟨PathTok.var v, ht, rfl⟩

theorem mem_infix_joinComma (v : String) (l : List String) (h : v ∈ l) :
    v.toList <:+: (joinComma l).toList := by
  induction l with
  | nil => cases h
  | cons s rest ih =>
      cases rest with
      | nil =>
          have hv : v = s := by simpa using h
          subst hv
          exact List.infix_refl _
      | cons s2 rest2 =>
          cases h with
          | head =>
              refine ⟨[], (", " ++ joinComma (s2 :: rest2)).toList, ?_⟩
              simp [joinComma]
          | tail _ h2 =>
              refine (ih h2).trans ?_
              refine ⟨(s ++ ", ").toList, [], ?_⟩
              simp [joinComma]

theorem mem_infix_missingVarsMsg (v : String) (l : List String) (h : v ∈ l) :
    v.toList <:+: (missingVarsMsg l).toList := by
  refine (mem_infix_joinComma v l h).trans ?_
  unfold missingVarsMsg
  refine ⟨("Missing required path variables: ").toList,
    (". Please provide values for these variables.").toList, ?_⟩
  simp

theorem mem_activeFiltered (fc1 : List String) (conns : List Connection)
    (conn : Connection) :
    conn ∈ activeFiltered fc1 conns ↔
      (conn ∈ conns ∧ conn.active = true ∧
        (fc1 ≠ [] → fc1.contains conn.key = true)) := by
  unfold activeFiltered
  by_cases h : fc1.isEmpty = true
  · have hfe : fc1 = [] := by
      cases fc1
      · rfl
      · simp at h
    subst hfe
    rw [if_neg (by simp)]
    simp [List.mem_filter]
  · have hne : fc1 ≠ [] := by
      cases fc1
      · simp at h
      · simp
    rw [if_pos (by simpa using h)]
    simp only [List.mem_filter, hne, ne_eq, not_false_iff, forall_true_left]
    tauto

/-! Lemmas about header and request assembly in `execute`. -/

theorem assembleHeaders_eq (c : ClientState) (p : ExecuteParams) :
    assembleHeaders c p =
      [("Content-Type",
        if p.is_form_data then "multipart/form-data" else "application/json"),
       ("x-pica-secret", c.secret),
       ("x-pica-connection-key", p.connection_key),
       ("x-pica-action-id", p.action.id)] := by
  simp only [assembleHeaders, generate_headers]
  cases hf : p.is_form_data
  · rfl
  · rfl

theorem assembleBody_headers (c : ClientState) (p : ExecuteParams) (r : Resolved) :
    (assembleBody c p r).2 = assembleHeaders c p ∨
    ((assembleBody c p r).2 =
        dinsert (assembleHeaders c p) "Content-Type" multipartContentType ∧
      p.is_form_data = true) := by
  simp only [assembleBody]
  by_cases h1 : ¬ ((strToLower p.method == "get") = true)
  · rw [if_pos h1]
    by_cases h2 : (p.is_form_data &&
        (match r.data with | some d => !d.isEmpty | none => false)) = true
    · rw [if_pos h2]
      refine Or.inr ⟨rfl, ?_⟩
      rw [Bool.and_eq_true] at h2
      exact h2.1
    · rw [if_neg h2]
      exact Or.inl rfl
  · rw [if_neg h1]
    exact Or.inl rfl

theorem executeTry_http_calls (c : ClientState)
    (ao : String → Except String (List AvailableAction))
    (ho : HttpRequest → Except String HttpResponse) (p : ExecuteParams)
    (req : HttpRequest)
    (hm : Call.http req ∈ (executeTry c ao ho p).2.1) :
    ∃ r, resolvePath p = .ok r ∧ req = buildRequest c p r := by
  simp only [executeTry] at hm
  by_cases hconn :
      ¬ ((c.connections.any (fun conn => conn.key == p.connection_key)) = true)
  · rw [if_pos hconn] at hm
    cases hm
  · rw [if_neg hconn] at hm
    cases hga : get_single_action ao p.action.id with
    | error e =>
        simp only [hga] at hm
        cases hm with
        | tail _ hm2 => cases hm2
    | ok fa =>
        simp only [hga] at hm
        cases hrp : resolvePath p with
        | error e =>
            simp only [hrp] at hm
            cases hm with
            | tail _ hm2 => cases hm2
        | ok r =>
            simp only [hrp] at hm
            cases hho : ho (buildRequest c p r) with
            | error e =>
                simp only [hho] at hm
                cases hm with
                | tail _ hm2 =>
                    cases hm2 with
                    | head => exact ⟨r, rfl, rfl⟩
                    | tail _ hm3 => cases hm3
            | ok resp =>
                simp only [hho] at hm
                cases hm with
                | tail _ hm2 =>
                    cases hm2 with
                    | head => exact ⟨r, rfl, rfl⟩
                    | tail _ hm3 => cases hm3

theorem execute_calls (c : ClientState)
    (ao : String → Except String (List AvailableAction))
    (ho : HttpRequest → Except String HttpResponse) (p : ExecuteParams) :
    (execute c ao ho p).2.1 = (executeTry c ao ho p).2.1 := by
  unfold execute
  rcases hx : executeTry c ao ho p with ⟨res, calls, logs⟩
  cases res
  · rfl
  · rfl

/-- Prepending the current `skip` to an arithmetic-progression trace that
starts at `skip + limit` gives the progression starting at `skip`. -/
theorem trace_arith_cons (skip limit : Nat) (t2 : List Nat)
    (ht2 : t2 = (List.range t2.length).map (fun i => (skip + limit) + i * limit)) :
    skip :: t2 =
      (List.range (skip :: t2).length).map (fun i => skip + i * limit) := by
  conv_lhs => rw [ht2]
  rw [List.length_cons, List.range_succ_eq_map, List.map_cons, List.map_map]
  congr 1
  · simp
  · refine List.map_congr_left ?_
    intro a _
    simp only [Function.comp_apply, Nat.succ_eq_add_one]
    ring

/-! ## Claim theorems -/

/-- C1: the public tool-facing operations `get_available_actions`,
`get_action_knowledge` and `execute` never raise: whenever the wrapped body
raises an exception `e`, each returns a `success=false` envelope carrying the
exception description in `message` and `raw`. -/
theorem tool_operations_never_raise :
    (∀ (oracle : Nat → Except String (Page AvailableAction)) (fuel : Nat)
        (platform e : String),
        get_all_available_actions oracle fuel = some (.error e) →
        get_available_actions oracle fuel platform =
          some { success := false, title := some "Failed to get available actions",
                 message := some e, raw := some e }) ∧
    (∀ (oracle : String → Except String (List AvailableAction))
        (platform action_id e : String),
        get_single_action oracle action_id = .error e →
        get_action_knowledge oracle platform action_id =
          { success := false, platform := platform,
            title := some "Failed to get action knowledge",
            message := some e, raw := some e }) ∧
    (∀ (c : ClientState) (ao : String → Except String (List AvailableAction))
        (ho : HttpRequest → Except String HttpResponse) (p : ExecuteParams)
        (e : String) (calls : List Call) (logs : List LogEvent),
        executeTry c ao ho p = (.error e, calls, logs) →
        (execute c ao ho p).1 =
          { success := false, title := some "Failed to execute action",
            message := some e, raw := some e }) := by
  refine ⟨?_, ?_, ?_⟩
  · intro oracle fuel platform e h
    unfold get_available_actions
    rw [h]
  · intro oracle platform action_id e h
    unfold get_action_knowledge
    rw [h]
  · intro c ao ho p e calls logs h
    unfold execute
    rw [h]

theorem tool_operations_never_raise_witness :
    get_available_actions (fun _ => .error "boom") 1 "github" =
      some { success := false, title := some "Failed to get available actions",
             message := some "Failed to fetch all available actions",
             raw := some "Failed to fetch all available actions" } ∧
    get_action_knowledge (fun _ => .error "net down") "github" "act-1" =
      { success := false, platform := "github",
        title := some "Failed to get action knowledge",
        message := some "Failed to fetch action",
        raw := some "Failed to fetch action" } ∧
    (execute demoClient (fun _ => .error "net down") demoHttpOracle demoParams).1 =
      { success := false, title := some "Failed to execute action",
        message := some "Failed to fetch action",
        raw := some "Failed to fetch action" } :=
  ⟨tool_operations_never_raise.1 (fun _ => .error "boom") 1 "github"
      "Failed to fetch all available actions" rfl,
   tool_operations_never_raise.2.1 (fun _ => .error "net down") "github" "act-1"
      "Failed to fetch action" rfl,
   tool_operations_never_raise.2.2 demoClient (fun _ => .error "net down")
      demoHttpOracle demoParams "Failed to fetch action"
      [Call.getAction "act-1"] [] rfl⟩

/-- C3: `execute` with a `connection_key` matching no loaded connection
fails with the connection-not-found envelope and issues no network call at
all: neither the action-detail fetch nor the passthrough request appears in
the call trace. -/
theorem execute_rejects_unknown_connection (c : ClientState)
    (ao : String → Except String (List AvailableAction))
    (ho : HttpRequest → Except String HttpResponse) (p : ExecuteParams)
    (h : ∀ conn ∈ c.connections, conn.key ≠ p.connection_key) :
    (execute c ao ho p).2.1 = [] ∧
    (execute c ao ho p).1.success = false ∧
    (execute c ao ho p).1.message = some (connectionNotFoundMsg p.platform) := by
  have hany : (c.connections.any (fun conn => conn.key == p.connection_key))
      = false := by
    rw [List.any_eq_false]
    intro conn hconn
    simpa using h conn hconn
  have htry : executeTry c ao ho p =
      (.error (connectionNotFoundMsg p.platform), [],
       [.errorLog (connectionNotFoundMsg p.platform)]) := by
    unfold executeTry
    rw [if_pos (by rw [hany]; simp)]
  unfold execute
  rw [htry]
  exact ⟨rfl, rfl, rfl⟩

theorem execute_rejects_unknown_connection_witness :
    (∀ conn ∈ demoClient.connections, conn.key ≠ "missing-key") ∧
    (execute demoClient demoActionOracle demoHttpOracle
      { demoParams with connection_key := "missing-key" }).2.1 = [] ∧
    (execute demoClient demoActionOracle demoHttpOracle
      { demoParams with connection_key := "missing-key" }).1.success = false := by
  have h : ∀ conn ∈ demoClient.connections, conn.key ≠ "missing-key" := by
    decide
  have hmain := execute_rejects_unknown_connection demoClient demoActionOracle
    demoHttpOracle { demoParams with connection_key := "missing-key" } h
  exact ⟨h, hmain.1, hmain.2.1⟩

/-- C7: any connector filter holding the wildcard token fetches all
connections and resolves to the empty filter, so the summary list is the
active connections with no key-based narrowing. -/
theorem wildcard_clears_connector_filter (f : List String)
    (fetched : List Connection) (h : "*" ∈ f) :
    (initializeResolve f fetched).connectors_filter = [] ∧
    (initializeResolve f fetched).connections = fetched ∧
    (initializeResolve f fetched).filtered_connections =
      fetched.filter (fun conn => conn.active) := by
  have hne : ¬ f.isEmpty = true := by
    cases f
    · cases h
    · simp
  have hcontains : f.contains "*" = true := List.elem_iff.mpr h
  have hfc : resolvedConnectorFilter f = [] := by
    unfold resolvedConnectorFilter
    rw [if_pos ⟨hne, hcontains⟩]
  have hconns : fetchedOrEmpty f fetched = fetched := by
    unfold fetchedOrEmpty
    rw [if_pos hne]
  refine ⟨hfc, hconns, ?_⟩
  show activeFiltered (resolvedConnectorFilter f) (fetchedOrEmpty f fetched) = _
  rw [hfc, hconns]
  unfold activeFiltered
  rw [if_neg (by simp)]

theorem wildcard_clears_connector_filter_witness :
    "*" ∈ ["*", "test::github::demo"] ∧
    (initializeResolve ["*", "test::github::demo"]
      [demoConnection, demoInactive]).connectors_filter = [] ∧
    (initializeResolve ["*", "test::github::demo"]
      [demoConnection, demoInactive]).connections = [demoConnection, demoInactive] ∧
    (initializeResolve ["*", "test::github::demo"]
      [demoConnection, demoInactive]).filtered_connections = [demoConnection] := by
  have h : "*" ∈ ["*", "test::github::demo"] := List.mem_cons_self _ _
  have hmain := wildcard_clears_connector_filter ["*", "test::github::demo"]
    [demoConnection, demoInactive] h
  refine ⟨h, hmain.1, hmain.2.1, ?_⟩
  rw [hmain.2.2]
  rfl

/-- C8: the active+filtered list computed by `initialize` holds exactly the
fetched connections that are `active` and, when a non-wildcard filter
remains, whose key is in the filter; an inactive connection never appears. -/
theorem filtered_connections_exactly_active (f : List String)
    (fetched : List Connection) (conn : Connection) :
    (conn ∈ (initializeResolve f fetched).filtered_connections ↔
      (conn ∈ (initializeResolve f fetched).connections ∧ conn.active = true ∧
        ((initializeResolve f fetched).connectors_filter ≠ [] →
          (initializeResolve f fetched).connectors_filter.contains conn.key
            = true))) ∧
    (conn ∈ (initializeResolve f fetched).filtered_connections →
      conn.active = true) := by
  have hiff := mem_activeFiltered (resolvedConnectorFilter f)
    (fetchedOrEmpty f fetched) conn
  refine ⟨hiff, fun hm => ((hiff.mp hm).2.1)⟩

theorem filtered_connections_exactly_active_witness :
    (demoConnection ∈ (initializeResolve ["test::github::demo"]
      [demoConnection, demoInactive]).filtered_connections) ∧
    (demoInactive ∉ (initializeResolve ["test::github::demo"]
      [demoConnection, demoInactive]).filtered_connections) := by
  constructor
  · refine (filtered_connections_exactly_active ["test::github::demo"]
      [demoConnection, demoInactive] demoConnection).1.mpr ?_
    refine ⟨List.mem_cons_self _ _, rfl, fun _ => rfl⟩
  · intro hm
    have h2 := (filtered_connections_exactly_active ["test::github::demo"]
      [demoConnection, demoInactive] demoInactive).2 hm
    simp [demoInactive] at h2

/-- C2: the execution engine's path-variable resolution is eager: the full
placeholder list is extracted first, and when placeholders (one or many) are
missing from the merged `data`+`path_variables` mapping it fails with one
error whose message names every missing placeholder at once; substitution,
which would stop at the first missing name, is never the failure — whenever
the eager check passes, substitution succeeds. -/
theorem missing_path_vars_reported_eagerly (p : ExecuteParams)
    (hne : findTemplateVars p.action.path ≠ []) :
    (missingPathVars p ≠ [] →
       resolvePath p = .error (missingVarsMsg (missingPathVars p)) ∧
       ∀ v ∈ missingPathVars p,
         v.toList <:+: (missingVarsMsg (missingPathVars p)).toList) ∧
    (missingPathVars p = [] → ∃ r, resolvePath p = .ok r) := by
  have h1 : ¬ ((findTemplateVars p.action.path).isEmpty = true) := by
    intro hh
    exact hne (by simpa using hh)
  constructor
  · intro hmiss
    have h2 : ¬ ((missingPathVars p).isEmpty = true) := by
      intro hh
      exact hmiss (by simpa using hh)
    refine ⟨?_, fun v hv => mem_infix_missingVarsMsg v _ hv⟩
    simp only [resolvePath]
    rw [if_neg h1, if_pos h2]
  · intro hmiss
    have hall : ∀ v ∈ findTemplateVars p.action.path,
        dcontains (combinedVars p) v = true := by
      intro v hv
      have h3 := List.filter_eq_nil_iff.mp hmiss v hv
      simpa using h3
    have hcov : ∀ n, PathTok.var n ∈ tokenizePath p.action.path.toList →
        dcontains (movedPair p).2 n = true := by
      intro n hn
      have hmem : n ∈ findTemplateVars p.action.path :=
        (mem_findTemplateVars p.action.path n).mpr hn
      have hcomb := hall n hmem
      cases hd : p.data with
      | none =>
          simp only [combinedVars, hd] at hcomb
          simp only [movedPair, hd]
          exact hcomb
      | some d =>
          simp only [combinedVars, hd] at hcomb
          rw [dcontains_dmerge] at hcomb
          simp only [movedPair, hd]
          exact movePathVars_covers _ _ _ _ hmem hcomb
    obtain ⟨s, hs⟩ := replaceToks_isOk (movedPair p).2 _ hcov
    have hrp : replace_path_variables p.action.path (movedPair p).2 = .ok s := hs
    refine ⟨⟨s, dataAfterMove p, (movedPair p).2⟩, ?_⟩
    have h2 : ¬ ¬ ((missingPathVars p).isEmpty = true) := by
      intro hh
      exact hh (by simp [hmiss])
    simp only [resolvePath]
    rw [if_neg h1, if_neg h2, hrp]

theorem missing_path_vars_reported_eagerly_witness :
    findTemplateVars demoMissingParams.action.path ≠ [] ∧
    missingPathVars demoMissingParams ≠ [] ∧
    resolvePath demoMissingParams = .error
      "Missing required path variables: a, b. Please provide values for these variables." ∧
    "a".toList <:+: (missingVarsMsg (missingPathVars demoMissingParams)).toList ∧
    "b".toList <:+: (missingVarsMsg (missingPathVars demoMissingParams)).toList := by
  have hne : findTemplateVars demoMissingParams.action.path ≠ [] := by decide
  have hmiss : missingPathVars demoMissingParams ≠ [] := by decide
  have h := (missing_path_vars_reported_eagerly demoMissingParams hne).1 hmiss
  refine ⟨hne, hmiss, ?_, h.2 "a" (by decide), h.2 "b" (by decide)⟩
  rw [h.1]
  rfl

/-- C4: a placeholder satisfied only via `data` is moved out of the body
mapping into `path_variables` (with a fresh `data` mapping, the move being
pure in this embedding), an explicit `path_variables` entry wins over a
`data` entry, and concretely `data=\x7b"id": "7", "note": "hi"\x7d` against
`/items/\x7b\x7bid\x7d\x7d` dispatches to `/items/7` with body
`\x7b"note": "hi"\x7d` and the `id` key absent from the body. -/
theorem data_keys_move_to_path_variables :
    (∀ (p : ExecuteParams) (d : AList Value) (r : Resolved) (v : String),
        p.data = some d →
        resolvePath p = .ok r →
        v ∈ findTemplateVars p.action.path →
        (dcontains d v = true → dcontains (p.path_variables.getD []) v = false →
          (∃ d2, r.data = some d2 ∧ dcontains d2 v = false) ∧
          dlookup r.path_variables v = dlookup d v) ∧
        (dcontains (p.path_variables.getD []) v = true →
          dlookup r.path_variables v = dlookup (p.path_variables.getD []) v)) ∧
    ((execute demoClient demoActionOracle demoHttpOracle demoParams).2.1 =
      [Call.getAction "act-1", Call.http demoRequest]) := by
  constructor
  · intro p d r v hd hok hv
    have h1 : ¬ ((findTemplateVars p.action.path).isEmpty = true) := by
      intro hh
      rw [(by simpa using hh : findTemplateVars p.action.path = [])] at hv
      cases hv
    simp only [resolvePath] at hok
    rw [if_neg h1] at hok
    by_cases h2 : ¬ ((missingPathVars p).isEmpty = true)
    · rw [if_pos h2] at hok
      cases hok
    · rw [if_neg h2] at hok
      cases hrp : replace_path_variables p.action.path (movedPair p).2 with
      | error e =>
          rw [hrp] at hok
          cases hok
      | ok s =>
          rw [hrp] at hok
          have hr : r = ⟨s, dataAfterMove p, (movedPair p).2⟩ := by
            cases hok
            rfl
          subst hr
          constructor
          · intro hdv hpv
            have hmove := movePathVars_moved (findTemplateVars p.action.path) d
              (p.path_variables.getD []) v hv hdv hpv
            refine ⟨⟨(movedPair p).1, ?_, ?_⟩, ?_⟩
            · simp only [dataAfterMove, hd]
            · simp only [movedPair, hd]
              exact hmove.1
            · simp only [movedPair, hd]
              exact hmove.2
          · intro hpv
            simp only [movedPair, hd]
            exact movePathVars_pv_stable _ _ _ _ hpv
  · rfl

theorem data_keys_move_to_path_variables_witness :
    ((∃ d2, demoResolved.data = some d2 ∧ dcontains d2 "id" = false) ∧
      dlookup demoResolved.path_variables "id" =
        dlookup [("id", Value.vstr "7"), ("note", Value.vstr "hi")] "id") ∧
    demoResolved.path = "/items/7" ∧
    demoResolved.data = some [("note", Value.vstr "hi")] := by
  have h := (data_keys_move_to_path_variables.1 demoParams
    [("id", Value.vstr "7"), ("note", Value.vstr "hi")] demoResolved "id"
    rfl rfl (by decide)).1 rfl rfl
  exact ⟨h, rfl, rfl⟩

/-- C9: `is_url_encoded` is accepted but never read by `execute`: two runs
differing only in the flag produce identical envelopes, identical network
calls and identical logs. -/
theorem is_url_encoded_has_no_effect (c : ClientState)
    (ao : String → Except String (List AvailableAction))
    (ho : HttpRequest → Except String HttpResponse) (p : ExecuteParams) :
    execute c ao ho { p with is_url_encoded := true } =
      execute c ao ho { p with is_url_encoded := false } := rfl

set_option maxRecDepth 4000 in
/-- C5: the paginator starts at `skip=0` and increments `skip` by `limit`
(the trace of issued requests is an arithmetic progression), accumulates each
page's rows, stops as soon as the accumulated count reaches the
server-reported `total` (250 rows in pages of 100 take exactly 3 requests
and return exactly 250 rows), and re-raises any request failure with no
partial result. -/
theorem paginator_accumulates_all_pages :
    (∃ rows, paginate_results server250 10 100 = some (.ok rows, [0, 100, 200]) ∧
       rows.length = 250) ∧
    (∀ {α : Type} (oracle : Nat → Except String (Page α)) (limit fuel skip : Nat)
        (acc : List α) (e : String),
        oracle skip = .error e →
        paginateAux oracle limit (fuel + 1) skip acc = some (.error e, [skip])) ∧
    (∀ {α : Type} (oracle : Nat → Except String (Page α)) (limit fuel skip : Nat)
        (acc : List α) (page : Page α),
        oracle skip = .ok page →
        page.total ≤ (acc ++ page.rows).length →
        paginateAux oracle limit (fuel + 1) skip acc =
          some (.ok (acc ++ page.rows), [skip])) ∧
    (∀ {α : Type} (oracle : Nat → Except String (Page α)) (limit fuel skip : Nat)
        (acc : List α) (r : Except String (List α)) (t : List Nat),
        paginateAux oracle limit fuel skip acc = some (r, t) →
        t = (List.range t.length).map (fun i => skip + i * limit)) := by
  refine ⟨⟨_, rfl, rfl⟩, ?_, ?_, ?_⟩
  · intro α oracle limit fuel skip acc e h
    simp only [paginateAux, h]
  · intro α oracle limit fuel skip acc page h hstop
    simp only [paginateAux, h]
    rw [if_pos hstop]
  · intro α oracle limit fuel
    induction fuel with
    | zero =>
        intro skip acc r t h
        cases h
    | succ fuel ih =>
        intro skip acc r t h
        simp only [paginateAux] at h
        cases ho : oracle skip with
        | error e =>
            simp only [ho] at h
            simp only [Option.some.injEq, Prod.mk.injEq] at h
            rw [← h.2]
            simp [List.range_succ]
        | ok page =>
            simp only [ho] at h
            by_cases hc : page.total ≤ (acc ++ page.rows).length
            · rw [if_pos hc] at h
              simp only [Option.some.injEq, Prod.mk.injEq] at h
              rw [← h.2]
              simp [List.range_succ]
            · rw [if_neg hc] at h
              cases hrec : paginateAux oracle limit fuel (skip + limit)
                  (acc ++ page.rows) with
              | none =>
                  simp only [hrec] at h
                  cases h
              | some pr =>
                  simp only [hrec] at h
                  obtain ⟨r2, t2⟩ := pr
                  simp only [Option.some.injEq, Prod.mk.injEq] at h
                  have ht2 := ih (skip + limit) (acc ++ page.rows) r2 t2 hrec
                  rw [← h.2]
                  exact trace_arith_cons skip limit t2 ht2

theorem paginator_accumulates_all_pages_witness :
    paginateAux (fun _ => .error "down") 100 3 0 ([] : List Nat) =
      some (.error "down", [0]) ∧
    paginateAux (fun _ => .ok ⟨[1, 2], 2⟩) 100 5 0 ([] : List Nat) =
      some (.ok [1, 2], [0]) ∧
    ([0, 7, 14] : List Nat) =
      (List.range ([0, 7, 14] : List Nat).length).map (fun i => 0 + i * 7) := by
  refine ⟨paginator_accumulates_all_pages.2.1 (fun _ => .error "down") 100 2 0 [] "down" rfl,
    paginator_accumulates_all_pages.2.2.1 (fun _ => .ok ⟨[1, 2], 2⟩) 100 4 0 []
      ⟨[1, 2], 2⟩ rfl (by decide), ?_⟩
  exact paginator_accumulates_all_pages.2.2.2 (fun _ => .ok ⟨[1], 3⟩) 7 3 0 []
    (.ok [1, 1, 1]) [0, 7, 14] rfl

/-- C6 is a code bug: the claim says secret/key-bearing header values are
masked before every log emission of `execute`, but the
`logger.debug(f"Request Config: ...")` call at `client.py:540` renders the
`request_config` dict — whose headers are the unmasked originals — before
the `safe_headers` masking of lines 543-544 is applied.  At this concrete
input the debug emission carries `x-pica-secret` and `x-pica-connection-key`
in plaintext, although the code's own name-matching predicate classifies
both as maskable. -/
theorem debug_log_emits_unmasked_secret :
    ∃ cfg : RequestConfig,
      LogEvent.debugConfig cfg ∈
        (execute demoClient demoActionOracle demoHttpOracle demoParams).2.2 ∧
      dlookup cfg.headers "x-pica-secret" = some "sk-live-secret" ∧
      dlookup cfg.headers "x-pica-connection-key" = some "test::github::demo" ∧
      headerNameSafe "x-pica-secret" = false ∧
      headerNameSafe "x-pica-connection-key" = false ∧
      dlookup (safeHeaders cfg.headers) "x-pica-secret" = some "********" := by
  refine ⟨requestConfigOf demoRequest, ?_, rfl, rfl, rfl, rfl, rfl⟩
  exact List.Mem.head _

/-- C10: the caller-supplied `params.headers` mapping is ignored by
`execute` — two runs differing only in it are identical — and every
dispatched passthrough request carries exactly the client-generated header
names `Content-Type`, `x-pica-secret`, `x-pica-connection-key` and
`x-pica-action-id`, with the secret, connection key and action id values,
and the JSON content type whenever `is_form_data` is unset. -/
theorem caller_headers_ignored :
    (∀ (c : ClientState) (ao : String → Except String (List AvailableAction))
        (ho : HttpRequest → Except String HttpResponse) (p : ExecuteParams)
        (h1 h2 : Option (AList Value)),
        execute c ao ho { p with headers := h1 } =
          execute c ao ho { p with headers := h2 }) ∧
    (∀ (c : ClientState) (ao : String → Except String (List AvailableAction))
        (ho : HttpRequest → Except String HttpResponse) (p : ExecuteParams)
        (req : HttpRequest),
        Call.http req ∈ (execute c ao ho p).2.1 →
        req.headers.map Prod.fst =
          ["Content-Type", "x-pica-secret", "x-pica-connection-key",
           "x-pica-action-id"] ∧
        dlookup req.headers "x-pica-secret" = some c.secret ∧
        dlookup req.headers "x-pica-connection-key" = some p.connection_key ∧
        dlookup req.headers "x-pica-action-id" = some p.action.id ∧
        (p.is_form_data = false →
          dlookup req.headers "Content-Type" = some "application/json")) := by
  constructor
  · intro c ao ho p h1 h2
    rfl
  · intro c ao ho p req hmem
    rw [execute_calls c ao ho p] at hmem
    obtain ⟨r, hrp, hreq⟩ := executeTry_http_calls c ao ho p req hmem
    subst hreq
    have hbh : (buildRequest c p r).headers = (assembleBody c p r).2 := rfl
    rw [hbh]
    rcases assembleBody_headers c p r with hh | ⟨hh, hform⟩
    · rw [hh, assembleHeaders_eq]
      refine ⟨rfl, rfl, rfl, rfl, ?_⟩
      intro hf
      rw [hf]
      rfl
    · rw [hh, assembleHeaders_eq]
      refine ⟨rfl, rfl, rfl, rfl, ?_⟩
      intro hf
      rw [hform] at hf
      cases hf

theorem caller_headers_ignored_witness :
    execute demoClient demoActionOracle demoHttpOracle
        { demoParams with headers := some [("X-Custom", Value.vstr "v")] } =
      execute demoClient demoActionOracle demoHttpOracle
        { demoParams with headers := none } ∧
    demoRequest.headers.map Prod.fst =
      ["Content-Type", "x-pica-secret", "x-pica-connection-key",
       "x-pica-action-id"] ∧
    dlookup demoRequest.headers "x-pica-secret" = some demoClient.secret ∧
    dlookup demoRequest.headers "Content-Type" = some "application/json" := by
  have h2 := caller_headers_ignored.2 demoClient demoActionOracle demoHttpOracle
    demoParams demoRequest (List.Mem.tail _ (List.Mem.head _))
  exact ⟨caller_headers_ignored.1 demoClient demoActionOracle demoHttpOracle
    demoParams (some [("X-Custom", Value.vstr "v")]) none,
    h2.1, h2.2.1, h2.2.2.2.2 rfl⟩

end Pica
